import Mathlib

/-!
Shallow embedding of `coffee_cup_ascii` (`main.go`), a terminal particle
animation: a pool of particles rises from a source row and is rendered as
density-shaded glyphs on a `height × width` grid.

Modelling conventions:
* Go `float64` coordinates, speeds and scale are modelled as `ℚ`;
  `math.Floor` becomes `Int.floor` and `math.Round` (half away from zero)
  becomes `goRound` below.
* Go `int`/`int64` become `Int`.
* The ambient clock (`time.Now().UnixMilli()`, field `lastTime`) is modelled
  by passing the elapsed `deltaMs` to `Update` explicitly.
* The ambient random generator is modelled by explicit `Draw` inputs: one
  `Draw` holds the samples one `reset` call consumes (`rand.Float64()`
  twice, `rand.NormFloat64()` once); system operations take a stream
  `ℕ → Draw` giving each particle index its own draw.
* Out-of-range slice indexing, a Go runtime panic, is modelled by `Option`:
  `Display` returns `none` exactly when `counts[row][col]++` would panic.
* `log.Fatal` in `NewCoffee` (process abort before any system is built) is
  modelled by `NewCoffee` returning `none`.
* The glyph closure bound in `NewCoffee` takes `(row, col, counts)` in Go
  and reads only `counts[row][col]`; it is embedded as `ascii` on the cell
  value, with `asciiAt` supplying the `counts[row][col]` read.
-/

namespace CoffeeCup

/-- The `Particle` struct: remaining lifetime (ms), speed, grid position. -/
structure Particle where
  Lifetime : Int
  Speed : ℚ
  X : ℚ
  Y : ℚ
deriving DecidableEq

/-- The numeric fields of `ParticleParams`. In Go the struct also carries the
three bound policy functions (`nextPosition`, `ascii`, `reset`); in this
embedding the steam-effect policies are the top-level functions of the same
names, applied directly by `Start`/`Update`/`Display`, exactly as `NewCoffee`
binds them. `X` is the grid width, `Y` the grid height. -/
structure ParticleParams where
  MaxLife : Int
  MaxSpeed : ℚ
  ParticleCount : Int
  X : Int
  Y : Int
  Scale : ℚ
deriving DecidableEq

/-- The random samples consumed by one call of `reset`: `u1`, `u2` model the
two `rand.Float64()` results (uniform in `[0,1)`), `n` models
`rand.NormFloat64()` (any real; a normal draw). -/
structure Draw where
  u1 : ℚ
  u2 : ℚ
  n : ℚ

/-- What the Go random library guarantees about a draw: `rand.Float64()`
lies in `[0,1)`; `rand.NormFloat64()` is unconstrained. -/
def Draw.Valid (d : Draw) : Prop :=
  0 ≤ d.u1 ∧ d.u1 < 1 ∧ 0 ≤ d.u2 ∧ d.u2 < 1

/-- A stream of valid draws, one per particle index. -/
def ValidDraws (ds : ℕ → Draw) : Prop :=
  ∀ i, (ds i).Valid

/-- The `reset` function (Respawn Policy of the steam effect). It assigns all
four particle fields, so it is embedded as producing the new particle. -/
def reset (d : Draw) (params : ParticleParams) : Particle :=
  let maxX : ℚ := ((⌊(params.X : ℚ) / 2⌋ : Int) : ℚ)
  let x : ℚ := max (-maxX) (min (d.n * params.Scale) maxX)
  { Lifetime := ⌊(params.MaxLife : ℚ) * d.u1⌋
    Speed := params.MaxSpeed * d.u2
    X := x + maxX
    Y := 0 }

/-- The `nextPos` function (Motion Policy of the steam effect). -/
def nextPos (p : Particle) (deltaMs : Int) : Particle :=
  let p1 : Particle := { p with Lifetime := p.Lifetime - deltaMs }
  if p1.Lifetime ≤ 0 then p1
  else
    let percent : ℚ := (deltaMs : ℚ) / 2000
    { p1 with Y := p1.Y + p1.Speed * percent }

/-- The particle system: its params and the particle pool. The Go struct's
`lastTime` field is replaced by the explicit `deltaMs` argument of `Update`. -/
structure ParticleSystem where
  params : ParticleParams
  particles : List Particle

/-- The `NewParticleSystem` constructor: a pool of `ParticleCount` zero-valued particles.
Go's `for i := 0; i < count; i++` loop performs `max(count, 0)` appends,
hence `Int.toNat`. -/
def NewParticleSystem (params : ParticleParams) : ParticleSystem :=
  { params := params
    particles := List.replicate params.ParticleCount.toNat ⟨0, 0, 0, 0⟩ }

/-- The `Start` method: reset every particle in the pool (particle `i` consumes draw
`ds i`). -/
def Start (ds : ℕ → Draw) (ps : ParticleSystem) : ParticleSystem :=
  { ps with particles := ps.particles.mapIdx fun i _ => reset (ds i) ps.params }

/-- The per-particle body of `Update`: advance by `nextPos`, then reset when
the particle left the grid or expired. -/
def updateParticle (params : ParticleParams) (deltaMs : Int) (d : Draw)
    (p : Particle) : Particle :=
  let p1 := nextPos p deltaMs
  if p1.Y ≥ (params.Y : ℚ) ∨ p1.X ≥ (params.X : ℚ) ∨ p1.Lifetime ≤ 0 then
    reset d params
  else p1

/-- The `Update` method for one tick of elapsed time `deltaMs = now - lastTime`. -/
def Update (deltaMs : Int) (ds : ℕ → Draw) (ps : ParticleSystem) :
    ParticleSystem :=
  { ps with
    particles := ps.particles.mapIdx fun i p =>
      updateParticle ps.params deltaMs (ds i) p }

/-- Go `math.Round`: round to nearest, halves away from zero. -/
def goRound (q : ℚ) : Int :=
  if q < 0 then -⌊-q + 1 / 2⌋ else ⌊q + 1 / 2⌋

/-- Apply `f` to entry `c` of a row (identity when `c` is out of range). -/
def mapRowAt (f : Int → Int) : List Int → ℕ → List Int
  | [], _ => []
  | x :: xs, 0 => f x :: xs
  | x :: xs, n + 1 => x :: mapRowAt f xs n

/-- Apply `f` to cell `(r, c)` of a grid (identity when out of range). -/
def mapCell (f : Int → Int) : List (List Int) → ℕ → ℕ → List (List Int)
  | [], _, _ => []
  | row :: rows, 0, c => mapRowAt f row c :: rows
  | row :: rows, r + 1, c => row :: mapCell f rows r c

/-- Read cell `(r, c)` of a grid, `0` when out of range. -/
def getCell (g : List (List Int)) (r c : ℕ) : Int :=
  (g.getD r []).getD c 0

/-- The `counts[row][col]++` step of `Display` for one particle:
`row = math.Floor(p.Y)`, `col = math.Round(p.X)`; `none` models the Go
panic when the cell lies outside the `height × width` grid. -/
def addParticle (height width : Int) (g : List (List Int)) (p : Particle) :
    Option (List (List Int)) :=
  let row : Int := ⌊p.Y⌋
  let col : Int := goRound p.X
  if 0 ≤ row ∧ row < height ∧ 0 ≤ col ∧ col < width then
    some (mapCell (· + 1) g row.toNat col.toNat)
  else none

/-- The density grid built by `Display`: a zeroed `height × width` grid,
then one increment per particle. -/
def buildCounts (ps : ParticleSystem) : Option (List (List Int)) :=
  let zero : List (List Int) :=
    List.replicate ps.params.Y.toNat (List.replicate ps.params.X.toNat 0)
  ps.particles.foldlM (addParticle ps.params.Y ps.params.X) zero

/-- The glyph closure bound by `NewCoffee`, as a function of the cell count
it reads. -/
def ascii (count : Int) : Char :=
  if count = 0 then ' '
  else if count < 4 then '░'
  else if count < 6 then '▒'
  else if count < 9 then '▓'
  else '█'

/-- The closure as `Display` invokes it: `ascii(r, c, counts)` reads
`counts[r][c]`. -/
def asciiAt (r c : ℕ) (counts : List (List Int)) : Char :=
  ascii (getCell counts r c)

/-- The lines of `Display`'s output, before joining: one glyph per cell,
rows reversed (`reverse(out)` in Go). -/
def displayLines (ps : ParticleSystem) : Option (List (List Char)) :=
  (buildCounts ps).map fun counts =>
    (counts.mapIdx fun r row => row.mapIdx fun c _ => asciiAt r c counts).reverse

/-- The `Display` method: the reversed rows joined by the newline separator. -/
def Display (ps : ParticleSystem) : Option (List Char) :=
  (displayLines ps).map fun out => List.intercalate ['\n'] out

/-- The fixed 8-neighbourhood iteration order (`dirs` in Go). -/
def dirs : List (Int × Int) :=
  [(-1, -1), (-1, 0), (-1, 1), (0, -1), (0, 1), (1, 0), (1, 1), (1, -1)]

/-- The `countParticles` helper. Each in-bounds neighbour OVERWRITES the
accumulator (`count = counts[...]` in Go, not `count +=`), so the result is
the value of the last in-bounds neighbour in `dirs` order. -/
def countParticles (row col : Int) (counts : List (List Int)) : Int :=
  dirs.foldl
    (fun count dir =>
      let r := row + dir.1
      let c := col + dir.2
      if r < 0 ∨ (counts.length : Int) ≤ r ∨ c < 0 ∨
          (((counts.headD []).length : Int)) ≤ c then count
      else getCell counts r.toNat c.toNat)
    0

/-- The `normalize` helper: zero the cell when `countParticles` exceeds 4.
It is never called anywhere in the program. -/
def normalize (row col : Int) (counts : List (List Int)) : List (List Int) :=
  if countParticles row col counts > 4 then
    mapCell (fun _ => 0) counts row.toNat col.toNat
  else counts

/-- Go's `Coffee` struct only embeds `ParticleSystem` and adds nothing. -/
abbrev Coffee := ParticleSystem

/-- The constructor `NewCoffee width height scale`: aborts (`log.Fatal`, modelled `none`)
when `width` is even, otherwise builds the steam-effect system with the
hard-coded `MaxLife = 7000`, `MaxSpeed = 1.5`, `ParticleCount = 60` and the
policies `reset` / `ascii` / `nextPos` bound. -/
def NewCoffee (width height : Int) (scale : ℚ) : Option Coffee :=
  if width % 2 = 0 then none
  else some (NewParticleSystem
    { MaxLife := 7000
      MaxSpeed := 3 / 2
      ParticleCount := 60
      X := width
      Y := height
      Scale := scale })

/-- Valid steam-effect configurations: positive odd width, positive height,
positive lifetime and speed bounds (all hold for the hard-coded `NewCoffee`
values and any positive grid). -/
def ParticleParams.Valid (params : ParticleParams) : Prop :=
  0 < params.X ∧ params.X % 2 = 1 ∧ 0 < params.Y ∧
    0 < params.MaxLife ∧ 0 < params.MaxSpeed

/-- The states reachable from construction: `Start` with valid draws, then
any number of `Update` ticks with nonnegative elapsed time (the clock is
monotone) and valid draws. `Display` reads the state without changing it. -/
inductive Reachable (params : ParticleParams) : ParticleSystem → Prop
  | start (ds : ℕ → Draw) (hds : ValidDraws ds) :
      Reachable params (Start ds (NewParticleSystem params))
  | update (ps : ParticleSystem) (deltaMs : Int) (ds : ℕ → Draw)
      (hps : Reachable params ps) (hdelta : 0 ≤ deltaMs)
      (hds : ValidDraws ds) :
      Reachable params (Update deltaMs ds ps)

/-- The per-particle invariant maintained between ticks: position inside the
grid (`X ≤ width - 1` from the clipped spawn, `Y < height` from the boundary
check) and nonnegative speed. -/
def Inv (params : ParticleParams) (p : Particle) : Prop :=
  0 ≤ p.X ∧ p.X ≤ (params.X : ℚ) - 1 ∧ 0 ≤ p.Y ∧ p.Y < (params.Y : ℚ) ∧
    0 ≤ p.Speed

/-- A grid of `h` rows, each of `w` cells. -/
def Shape (h w : ℕ) (g : List (List Int)) : Prop :=
  g.length = h ∧ ∀ row ∈ g, row.length = w

/-- A small valid configuration: one particle on a `3 × 5` grid, spread 0. -/
def demoParams : ParticleParams :=
  { MaxLife := 7000, MaxSpeed := 3 / 2, ParticleCount := 1,
    X := 5, Y := 3, Scale := 0 }

/-- A constant stream of valid draws. -/
def demoDraws : ℕ → Draw := fun _ => ⟨0, 0, 0⟩

/-- An empty-pool `1 × 1` system, used to exercise `Display` concretely. -/
def demoEmpty : ParticleSystem :=
  { params := { MaxLife := 7000, MaxSpeed := 3 / 2, ParticleCount := 0,
                X := 1, Y := 1, Scale := 0 },
    particles := [] }

/-- A `3 × 3` system with one particle at cell `(1, 1)` and five at `(2, 0)`:
cell `(2, 0)` is the LAST in-bounds neighbour of `(1, 1)` in `dirs` order, so
`normalize` would zero cell `(1, 1)`, yet `Display` renders it. -/
def demoClump : ParticleSystem :=
  { params := { MaxLife := 7000, MaxSpeed := 3 / 2, ParticleCount := 6,
                X := 3, Y := 3, Scale := 0 },
    particles := [⟨1, 0, 1, 1⟩, ⟨1, 0, 0, 2⟩, ⟨1, 0, 0, 2⟩, ⟨1, 0, 0, 2⟩,
                  ⟨1, 0, 0, 2⟩, ⟨1, 0, 0, 2⟩] }

/-! ### Basic lemmas about the policies -/

theorem nextPos_Lifetime (p : Particle) (d : Int) :
    (nextPos p d).Lifetime = p.Lifetime - d := by
  simp only [nextPos]
  split <;> rfl

theorem nextPos_X (p : Particle) (d : Int) : (nextPos p d).X = p.X := by
  simp only [nextPos]
  split <;> rfl

theorem nextPos_Speed (p : Particle) (d : Int) :
    (nextPos p d).Speed = p.Speed := by
  simp only [nextPos]
  split <;> rfl

theorem nextPos_Y_of_expired (p : Particle) (d : Int)
    (h : p.Lifetime - d ≤ 0) : (nextPos p d).Y = p.Y := by
  simp only [nextPos]
  rw [if_pos h]

theorem nextPos_Y_of_alive (p : Particle) (d : Int)
    (h : 0 < p.Lifetime - d) :
    (nextPos p d).Y = p.Y + p.Speed * ((d : ℚ) / 2000) := by
  simp only [nextPos]
  rw [if_neg (by omega)]

theorem floor_half_mul_two (X : Int) (hodd : X % 2 = 1) :
    2 * ⌊(X : ℚ) / 2⌋ = X - 1 := by
  have h : ⌊(X : ℚ) / 2⌋ = X / 2 := by
    rw [show ((2 : ℚ)) = ((2 : ℕ) : ℚ) by norm_num]
    exact Rat.floor_intCast_div_natCast X 2
  rw [h]
  omega

theorem floor_half_nonneg (X : Int) (hX : 0 < X) : 0 ≤ ⌊(X : ℚ) / 2⌋ := by
  apply Int.floor_nonneg.2
  positivity

/-- Everything `reset` guarantees about the particle it produces. -/
theorem reset_spec (d : Draw) (params : ParticleParams)
    (hp : params.Valid) (hd : d.Valid) :
    0 ≤ (reset d params).Lifetime ∧
      (reset d params).Lifetime < params.MaxLife ∧
      0 ≤ (reset d params).Speed ∧
      (reset d params).Speed < params.MaxSpeed ∧
      (reset d params).Y = 0 ∧
      0 ≤ (reset d params).X ∧
      (reset d params).X ≤ (params.X : ℚ) - 1 := by
  obtain ⟨hX, hodd, hY, hml, hms⟩ := hp
  obtain ⟨hu1, hu1', hu2, hu2'⟩ := hd
  have hml' : (0 : ℚ) < (params.MaxLife : ℚ) := by exact_mod_cast hml
  have hfl : 0 ≤ ⌊(params.MaxLife : ℚ) * d.u1⌋ :=
    Int.floor_nonneg.2 (mul_nonneg hml'.le hu1)
  have hfl' : ⌊(params.MaxLife : ℚ) * d.u1⌋ < params.MaxLife := by
    apply Int.floor_lt.2
    calc (params.MaxLife : ℚ) * d.u1 < (params.MaxLife : ℚ) * 1 := by
          exact mul_lt_mul_of_pos_left hu1' hml'
      _ = (params.MaxLife : ℚ) := mul_one _
  have hmaxX : (0 : ℚ) ≤ ((⌊(params.X : ℚ) / 2⌋ : Int) : ℚ) := by
    exact_mod_cast floor_half_nonneg params.X hX
  have htwo : ((⌊(params.X : ℚ) / 2⌋ : Int) : ℚ) +
      ((⌊(params.X : ℚ) / 2⌋ : Int) : ℚ) = (params.X : ℚ) - 1 := by
    have h := floor_half_mul_two params.X hodd
    have h2 : ((2 * ⌊(params.X : ℚ) / 2⌋ : Int) : ℚ) =
        ((params.X - 1 : Int) : ℚ) := by
      exact_mod_cast congrArg (fun z : Int => (z : ℚ)) h
    push_cast at h2
    linarith
  refine ⟨hfl, hfl', mul_nonneg hms.le hu2, ?_, rfl, ?_, ?_⟩
  · calc params.MaxSpeed * d.u2 < params.MaxSpeed * 1 :=
        mul_lt_mul_of_pos_left hu2' hms
      _ = params.MaxSpeed := mul_one _
  · show 0 ≤ max _ _ + _
    have : -((⌊(params.X : ℚ) / 2⌋ : Int) : ℚ) ≤ max
        (-((⌊(params.X : ℚ) / 2⌋ : Int) : ℚ))
        (min (d.n * params.Scale) ((⌊(params.X : ℚ) / 2⌋ : Int) : ℚ)) :=
      le_max_left _ _
    linarith
  · show max _ _ + _ ≤ _
    have : max (-((⌊(params.X : ℚ) / 2⌋ : Int) : ℚ))
        (min (d.n * params.Scale) ((⌊(params.X : ℚ) / 2⌋ : Int) : ℚ)) ≤
        ((⌊(params.X : ℚ) / 2⌋ : Int) : ℚ) :=
      max_le (by linarith) (min_le_right _ _)
    linarith

theorem reset_Inv (d : Draw) (params : ParticleParams)
    (hp : params.Valid) (hd : d.Valid) : Inv params (reset d params) := by
  obtain ⟨_, _, hs, _, hy, hx, hx'⟩ := reset_spec d params hp hd
  have hY : (0 : ℚ) < (params.Y : ℚ) := by exact_mod_cast hp.2.2.1
  exact ⟨hx, hx', by rw [hy], by rw [hy]; exact hY, hs⟩

theorem updateParticle_Inv (params : ParticleParams) (deltaMs : Int)
    (d : Draw) (p : Particle) (hp : params.Valid) (hd : d.Valid)
    (hdelta : 0 ≤ deltaMs) (hInv : Inv params p) :
    Inv params (updateParticle params deltaMs d p) := by
  obtain ⟨hx0, hx1, hy0, hy1, hs⟩ := hInv
  simp only [updateParticle]
  split
  · exact reset_Inv d params hp hd
  · rename_i hcond
    push_neg at hcond
    obtain ⟨hYlt, -, hlife⟩ := hcond
    have hy' : p.Y ≤ (nextPos p deltaMs).Y := by
      rcases le_or_lt (p.Lifetime - deltaMs) 0 with h | h
      · rw [nextPos_Y_of_expired p deltaMs h]
      · rw [nextPos_Y_of_alive p deltaMs h]
        have : (0 : ℚ) ≤ p.Speed * ((deltaMs : ℚ) / 2000) := by
          apply mul_nonneg hs
          positivity
        linarith
    refine ⟨?_, ?_, le_trans hy0 hy', hYlt, ?_⟩
    · rw [nextPos_X]; exact hx0
    · rw [nextPos_X]; exact hx1
    · rw [nextPos_Speed]; exact hs

/-! ### Reachability and the system invariant -/

theorem mem_mapIdx {α β : Type} {l : List α} {f : ℕ → α → β} {b : β}
    (h : b ∈ l.mapIdx f) :
    ∃ i, ∃ hi : i < l.length, b = f i (l.get ⟨i, hi⟩) := by
  rw [List.mem_iff_get] at h
  obtain ⟨⟨i, hi⟩, hb⟩ := h
  have hl : i < l.length := by
    simpa using hi
  exact ⟨i, hl, by rw [← List.get_mapIdx l f i hl]; exact hb.symm⟩

theorem Reachable.params_eq {params : ParticleParams} {ps : ParticleSystem}
    (h : Reachable params ps) : ps.params = params := by
  induction h with
  | start ds hds => rfl
  | update ps deltaMs ds hps hdelta hds ih => exact ih

theorem reachable_Inv {params : ParticleParams} {ps : ParticleSystem}
    (h : Reachable params ps) (hp : params.Valid) :
    ∀ p ∈ ps.particles, Inv params p := by
  induction h with
  | start ds hds =>
    intro p hmem
    obtain ⟨i, hi, hpeq⟩ := mem_mapIdx hmem
    rw [hpeq]
    exact reset_Inv (ds i) params hp (hds i)
  | update ps deltaMs ds hps hdelta hds ih =>
    intro p hmem
    obtain ⟨i, hi, hpeq⟩ := mem_mapIdx hmem
    rw [hpeq, hps.params_eq]
    exact updateParticle_Inv params deltaMs (ds i) _ hp (hds i) hdelta
      (ih _ (List.get_mem _ _ _))

/-! ### Grid shape and the density pass -/

theorem length_mapRowAt (f : Int → Int) (xs : List Int) (n : ℕ) :
    (mapRowAt f xs n).length = xs.length := by
  induction xs generalizing n with
  | nil => rfl
  | cons x xs ih =>
    cases n with
    | zero => rfl
    | succ n => simp [mapRowAt, ih]

theorem mapCell_length (f : Int → Int) (g : List (List Int)) (r c : ℕ) :
    (mapCell f g r c).length = g.length := by
  induction g generalizing r with
  | nil => rfl
  | cons row rows ih =>
    cases r with
    | zero => simp [mapCell]
    | succ r => simp [mapCell, ih]

theorem mapCell_rows_length (f : Int → Int) (w : ℕ) :
    ∀ (g : List (List Int)) (r c : ℕ), (∀ row ∈ g, row.length = w) →
      ∀ row' ∈ mapCell f g r c, row'.length = w := by
  intro g
  induction g with
  | nil => intro r c _ row' hmem; simp [mapCell] at hmem
  | cons row rows ih =>
    intro r c hrows row' hmem
    cases r with
    | zero =>
      rcases List.mem_cons.1 hmem with h' | h'
      · rw [h', length_mapRowAt]
        exact hrows row (List.mem_cons_self _ _)
      · exact hrows row' (List.mem_cons_of_mem _ h')
    | succ r =>
      rcases List.mem_cons.1 hmem with h' | h'
      · rw [h']
        exact hrows row (List.mem_cons_self _ _)
      · exact ih r c (fun q hq => hrows q (List.mem_cons_of_mem _ hq)) row' h'

theorem mapCell_Shape (f : Int → Int) {h w : ℕ} {g : List (List Int)}
    (hg : Shape h w g) (r c : ℕ) : Shape h w (mapCell f g r c) := by
  obtain ⟨hlen, hrows⟩ := hg
  exact ⟨by rw [mapCell_length, hlen], mapCell_rows_length f w g r c hrows⟩

theorem goRound_nonneg {q : ℚ} (h : 0 ≤ q) : 0 ≤ goRound q := by
  unfold goRound
  rw [if_neg (not_lt.2 h)]
  exact Int.floor_nonneg.2 (by linarith)

theorem goRound_lt {q : ℚ} {X : Int} (h0 : 0 ≤ q) (h : q ≤ (X : ℚ) - 1) :
    goRound q < X := by
  unfold goRound
  rw [if_neg (not_lt.2 h0)]
  apply Int.floor_lt.2
  linarith

theorem addParticle_some {params : ParticleParams} {p : Particle}
    (hp : params.Valid) (hInv : Inv params p) (g : List (List Int)) :
    addParticle params.Y params.X g p =
      some (mapCell (· + 1) g ⌊p.Y⌋.toNat (goRound p.X).toNat) := by
  obtain ⟨hx0, hx1, hy0, hy1, -⟩ := hInv
  simp only [addParticle]
  rw [if_pos]
  exact ⟨Int.floor_nonneg.2 hy0, Int.floor_lt.2 hy1,
    goRound_nonneg hx0, goRound_lt hx0 hx1⟩

theorem foldl_addParticle_some {params : ParticleParams} (hp : params.Valid)
    (l : List Particle) :
    ∀ g : List (List Int), (∀ p ∈ l, Inv params p) →
      Shape params.Y.toNat params.X.toNat g →
      ∃ g', l.foldlM (addParticle params.Y params.X) g = some g' ∧
        Shape params.Y.toNat params.X.toNat g' := by
  induction l with
  | nil => exact fun g _ hg => ⟨g, rfl, hg⟩
  | cons p l ih =>
    intro g hall hg
    have hstep := addParticle_some hp (hall p (List.mem_cons_self _ _)) g
    have hshape := mapCell_Shape (· + 1) hg ⌊p.Y⌋.toNat (goRound p.X).toNat
    obtain ⟨g', hfold, hg'⟩ :=
      ih _ (fun q hq => hall q (List.mem_cons_of_mem _ hq)) hshape
    refine ⟨g', ?_, hg'⟩
    rw [List.foldlM_cons, hstep]
    exact hfold

theorem zero_grid_Shape (params : ParticleParams) :
    Shape params.Y.toNat params.X.toNat
      (List.replicate params.Y.toNat (List.replicate params.X.toNat 0)) := by
  refine ⟨List.length_replicate _ _, ?_⟩
  intro row hmem
  rw [(List.eq_of_mem_replicate hmem : row = _)]
  exact List.length_replicate _ _

theorem buildCounts_some {params : ParticleParams} {ps : ParticleSystem}
    (h : Reachable params ps) (hp : params.Valid) :
    ∃ counts, buildCounts ps = some counts ∧
      Shape params.Y.toNat params.X.toNat counts := by
  have hparams := h.params_eq
  unfold buildCounts
  rw [hparams]
  exact foldl_addParticle_some hp ps.particles _
    (reachable_Inv h hp) (zero_grid_Shape params)

/-! ### Claim theorems -/

/-- C2: for every particle and every `deltaMs > 0`, the motion policy
(`nextPos`) first decreases `lifetime` by exactly `deltaMs`; if the
decreased lifetime is `≤ 0` the particle's position (`x` and `y`) is left
unchanged that tick; otherwise `y` increases by `speed * (deltaMs / 2000)`
and `x` is not modified. -/
theorem C2_motion_policy (p : Particle) (deltaMs : Int) (h : 0 < deltaMs) :
    (nextPos p deltaMs).Lifetime = p.Lifetime - deltaMs ∧
      (p.Lifetime - deltaMs ≤ 0 →
        (nextPos p deltaMs).X = p.X ∧ (nextPos p deltaMs).Y = p.Y) ∧
      (0 < p.Lifetime - deltaMs →
        (nextPos p deltaMs).Y = p.Y + p.Speed * ((deltaMs : ℚ) / 2000) ∧
          (nextPos p deltaMs).X = p.X) :=
  ⟨nextPos_Lifetime p deltaMs,
   fun hl => ⟨nextPos_X p deltaMs, nextPos_Y_of_expired p deltaMs hl⟩,
   fun hl => ⟨nextPos_Y_of_alive p deltaMs hl, nextPos_X p deltaMs⟩⟩

/-- Witness for C2 at the particle `(100, 1, 2, 0)` and `deltaMs = 30`. -/
theorem C2_motion_policy_witness :
    (0 : Int) < 30 ∧
      ((nextPos ⟨100, 1, 2, 0⟩ 30).Lifetime = (100 : Int) - 30 ∧
        ((100 : Int) - 30 ≤ 0 →
          (nextPos ⟨100, 1, 2, 0⟩ 30).X = 2 ∧
            (nextPos ⟨100, 1, 2, 0⟩ 30).Y = 0) ∧
        (0 < (100 : Int) - 30 →
          (nextPos ⟨100, 1, 2, 0⟩ 30).Y = 0 + 1 * ((30 : ℚ) / 2000) ∧
            (nextPos ⟨100, 1, 2, 0⟩ 30).X = 2)) :=
  ⟨by decide, C2_motion_policy ⟨100, 1, 2, 0⟩ 30 (by decide)⟩

/-- C4: the glyph-selection function is a pure function of the integer cell
count alone: count 0 maps to blank, 1–3 to light shade, 4–5 to medium
shade, 6–8 to dark shade, every count `≥ 9` to solid block; in particular
0, 1, 3, 4, 5, 6, 8, 9, 20 map to blank, light, light, medium, medium,
dark, dark, solid, solid. -/
theorem C4_glyph_thresholds :
    (∀ count : Int,
      (count = 0 → ascii count = ' ') ∧
      (1 ≤ count → count ≤ 3 → ascii count = '░') ∧
      (4 ≤ count → count ≤ 5 → ascii count = '▒') ∧
      (6 ≤ count → count ≤ 8 → ascii count = '▓') ∧
      (9 ≤ count → ascii count = '█')) ∧
    [(0 : Int), 1, 3, 4, 5, 6, 8, 9, 20].map ascii =
      [' ', '░', '░', '▒', '▒', '▓', '▓', '█', '█'] := by
  constructor
  · intro count
    refine ⟨fun h => ?_, fun h1 h2 => ?_, fun h1 h2 => ?_,
      fun h1 h2 => ?_, fun h1 => ?_⟩
    · rw [h]
      rfl
    · unfold ascii
      rw [if_neg (by omega), if_pos (by omega)]
    · unfold ascii
      rw [if_neg (by omega), if_neg (by omega), if_pos (by omega)]
    · unfold ascii
      rw [if_neg (by omega), if_neg (by omega), if_neg (by omega),
        if_pos (by omega)]
    · unfold ascii
      rw [if_neg (by omega), if_neg (by omega), if_neg (by omega),
        if_neg (by omega)]
  · decide

/-- Witness for C4 at counts 2 and 10. -/
theorem C4_glyph_thresholds_witness : ascii 2 = '░' ∧ ascii 10 = '█' :=
  ⟨(C4_glyph_thresholds.1 2).2.1 (by decide) (by decide),
   (C4_glyph_thresholds.1 10).2.2.2.2 (by decide)⟩

/-- C7: construction fails (a fatal diagnostic, modelled as `none`, with no
particle state ever created) exactly when the width is even; with an odd
width construction succeeds, and no other input produces an error. -/
theorem C7_even_width_fatal (width height : Int) (scale : ℚ) :
    (NewCoffee width height scale = none ↔ width % 2 = 0) ∧
      (width % 2 ≠ 0 →
        NewCoffee width height scale =
          some (NewParticleSystem
            { MaxLife := 7000, MaxSpeed := 3 / 2, ParticleCount := 60,
              X := width, Y := height, Scale := scale })) := by
  unfold NewCoffee
  refine ⟨⟨fun h => ?_, fun h => by rw [if_pos h]⟩, fun h => by rw [if_neg h]⟩
  by_contra hne
  rw [if_neg hne] at h
  exact Option.noConfusion h

/-- Witness for C7: width 2 aborts, the program's own call
`NewCoffee(71, 8, 4.5)` succeeds. -/
theorem C7_even_width_fatal_witness :
    NewCoffee 2 8 0 = none ∧
      NewCoffee 71 8 (9 / 2) =
        some (NewParticleSystem
          { MaxLife := 7000, MaxSpeed := 3 / 2, ParticleCount := 60,
            X := 71, Y := 8, Scale := 9 / 2 }) :=
  ⟨(C7_even_width_fatal 2 8 0).1.2 (by decide),
   (C7_even_width_fatal 71 8 (9 / 2)).2 (by decide)⟩

/-- C10: the public constructor takes only width, height and scale, and
hard-codes `MaxLife = 7000`, `MaxSpeed = 1.5`, `ParticleCount = 60` for
every instance it returns. -/
theorem C10_hardcoded_config (width height : Int) (scale : ℚ) (c : Coffee)
    (h : NewCoffee width height scale = some c) :
    c.params.MaxLife = 7000 ∧ c.params.MaxSpeed = 3 / 2 ∧
      c.params.ParticleCount = 60 ∧ c.params.X = width ∧
      c.params.Y = height ∧ c.params.Scale = scale ∧
      c.particles.length = 60 := by
  unfold NewCoffee at h
  by_cases he : width % 2 = 0
  · rw [if_pos he] at h
    exact Option.noConfusion h
  · rw [if_neg he] at h
    have hc := Option.some.inj h
    subst hc
    exact ⟨rfl, rfl, rfl, rfl, rfl, rfl, by simp [NewParticleSystem]⟩

/-- Witness for C10 at `NewCoffee 1 2 0`. -/
theorem C10_hardcoded_config_witness :
    (NewParticleSystem
        { MaxLife := 7000, MaxSpeed := 3 / 2, ParticleCount := 60,
          X := 1, Y := 2, Scale := 0 } : Coffee).params.MaxLife = 7000 ∧
      (NewParticleSystem
        { MaxLife := 7000, MaxSpeed := 3 / 2, ParticleCount := 60,
          X := 1, Y := 2, Scale := 0 } : Coffee).params.MaxSpeed = 3 / 2 ∧
      (NewParticleSystem
        { MaxLife := 7000, MaxSpeed := 3 / 2, ParticleCount := 60,
          X := 1, Y := 2, Scale := 0 } : Coffee).params.ParticleCount = 60 ∧
      (NewParticleSystem
        { MaxLife := 7000, MaxSpeed := 3 / 2, ParticleCount := 60,
          X := 1, Y := 2, Scale := 0 } : Coffee).params.X = 1 ∧
      (NewParticleSystem
        { MaxLife := 7000, MaxSpeed := 3 / 2, ParticleCount := 60,
          X := 1, Y := 2, Scale := 0 } : Coffee).params.Y = 2 ∧
      (NewParticleSystem
        { MaxLife := 7000, MaxSpeed := 3 / 2, ParticleCount := 60,
          X := 1, Y := 2, Scale := 0 } : Coffee).params.Scale = 0 ∧
      (NewParticleSystem
        { MaxLife := 7000, MaxSpeed := 3 / 2, ParticleCount := 60,
          X := 1, Y := 2, Scale := 0 } : Coffee).particles.length = 60 :=
  C10_hardcoded_config 1 2 0 _ (by rfl)

/-! ### A small concrete configuration used by witnesses -/

theorem demoParams_Valid : demoParams.Valid := by
  refine ⟨by decide, by decide, by decide, by decide, ?_⟩
  show (0 : ℚ) < 3 / 2
  norm_num

theorem demoDraws_Valid : ValidDraws demoDraws := by
  intro i
  refine ⟨le_refl 0, ?_, le_refl 0, ?_⟩ <;>
    · show (0 : ℚ) < 1
      norm_num

theorem demoReachable :
    Reachable demoParams (Start demoDraws (NewParticleSystem demoParams)) :=
  Reachable.start demoDraws demoDraws_Valid

/-- C3: after the respawn policy runs (hence for every particle after
`Start`), `lifetime ∈ [0, maxLifetime)`, `speed ∈ [0, maxSpeed)`, `y = 0`,
and `x = center + clip(normalDraw * scale, -center, +center)` with
`center = floor(width / 2)`, so `0 ≤ x < width`. -/
theorem C3_respawn_bounds (params : ParticleParams) (d : Draw)
    (ds : ℕ → Draw) (hp : params.Valid) (hd : d.Valid) (hds : ValidDraws ds) :
    (0 ≤ (reset d params).Lifetime ∧
      (reset d params).Lifetime < params.MaxLife ∧
      0 ≤ (reset d params).Speed ∧
      (reset d params).Speed < params.MaxSpeed ∧
      (reset d params).Y = 0 ∧
      (reset d params).X =
        ((⌊(params.X : ℚ) / 2⌋ : Int) : ℚ) +
          max (-((⌊(params.X : ℚ) / 2⌋ : Int) : ℚ))
            (min (d.n * params.Scale) ((⌊(params.X : ℚ) / 2⌋ : Int) : ℚ)) ∧
      0 ≤ (reset d params).X ∧ (reset d params).X < (params.X : ℚ)) ∧
    ∀ p ∈ (Start ds (NewParticleSystem params)).particles,
      0 ≤ p.Lifetime ∧ p.Lifetime < params.MaxLife ∧ 0 ≤ p.Speed ∧
        p.Speed < params.MaxSpeed ∧ p.Y = 0 ∧ 0 ≤ p.X ∧
        p.X < (params.X : ℚ) := by
  have hQ : (params.X : ℚ) - 1 < (params.X : ℚ) := by linarith
  constructor
  · obtain ⟨h1, h2, h3, h4, h5, h6, h7⟩ := reset_spec d params hp hd
    refine ⟨h1, h2, h3, h4, h5, ?_, h6, lt_of_le_of_lt h7 hQ⟩
    show max (-((⌊(params.X : ℚ) / 2⌋ : Int) : ℚ))
        (min (d.n * params.Scale) ((⌊(params.X : ℚ) / 2⌋ : Int) : ℚ)) +
        ((⌊(params.X : ℚ) / 2⌋ : Int) : ℚ) = _
    exact add_comm _ _
  · intro p hmem
    obtain ⟨i, hi, hpeq⟩ := mem_mapIdx hmem
    rw [hpeq]
    obtain ⟨h1, h2, h3, h4, h5, h6, h7⟩ := reset_spec (ds i) params hp (hds i)
    exact ⟨h1, h2, h3, h4, h5, h6, lt_of_le_of_lt h7 hQ⟩

/-- Witness for C3 at the demo configuration and the draw `(0, 0, 0)`. -/
theorem C3_respawn_bounds_witness :
    (reset ⟨0, 0, 0⟩ demoParams).Y = 0 ∧
      0 ≤ (reset ⟨0, 0, 0⟩ demoParams).X ∧
      (reset ⟨0, 0, 0⟩ demoParams).X < (demoParams.X : ℚ) :=
  ⟨(C3_respawn_bounds demoParams ⟨0, 0, 0⟩ demoDraws demoParams_Valid
      (demoDraws_Valid 0) demoDraws_Valid).1.2.2.2.2.1,
   (C3_respawn_bounds demoParams ⟨0, 0, 0⟩ demoDraws demoParams_Valid
      (demoDraws_Valid 0) demoDraws_Valid).1.2.2.2.2.2.2.1,
   (C3_respawn_bounds demoParams ⟨0, 0, 0⟩ demoDraws demoParams_Valid
      (demoDraws_Valid 0) demoDraws_Valid).1.2.2.2.2.2.2.2⟩

theorem Update_getD (deltaMs : Int) (ds : ℕ → Draw) (ps : ParticleSystem)
    (i : ℕ) (hi : i < ps.particles.length) (p₀ : Particle) :
    (Update deltaMs ds ps).particles.getD i p₀ =
      updateParticle ps.params deltaMs (ds i) (ps.particles.getD i p₀) := by
  have hi2 : i < ((ps.particles.mapIdx fun j p =>
      updateParticle ps.params deltaMs (ds j) p)).length := by
    simpa using hi
  show (ps.particles.mapIdx fun j p =>
      updateParticle ps.params deltaMs (ds j) p).getD i p₀ = _
  rw [List.getD_eq_get _ p₀ hi2, List.get_mapIdx _ _ i hi,
    List.getD_eq_get _ p₀ hi]

/-- C5: within one `Update`, particle `i` is first advanced by the motion
policy, and then the respawn policy overwrites it if and only if
`y ≥ height`, or `x ≥ width`, or `lifetime ≤ 0` holds after the motion
step; otherwise it keeps its advanced state. -/
theorem C5_update_respawn_iff (deltaMs : Int) (ds : ℕ → Draw)
    (ps : ParticleSystem) (i : ℕ) (hi : i < ps.particles.length)
    (p₀ : Particle) :
    ((nextPos (ps.particles.getD i p₀) deltaMs).Y ≥ (ps.params.Y : ℚ) ∨
        (nextPos (ps.particles.getD i p₀) deltaMs).X ≥ (ps.params.X : ℚ) ∨
        (nextPos (ps.particles.getD i p₀) deltaMs).Lifetime ≤ 0 →
      (Update deltaMs ds ps).particles.getD i p₀ = reset (ds i) ps.params) ∧
    (¬((nextPos (ps.particles.getD i p₀) deltaMs).Y ≥ (ps.params.Y : ℚ) ∨
        (nextPos (ps.particles.getD i p₀) deltaMs).X ≥ (ps.params.X : ℚ) ∨
        (nextPos (ps.particles.getD i p₀) deltaMs).Lifetime ≤ 0) →
      (Update deltaMs ds ps).particles.getD i p₀ =
        nextPos (ps.particles.getD i p₀) deltaMs) := by
  rw [Update_getD deltaMs ds ps i hi p₀]
  simp only [updateParticle]
  constructor
  · intro h
    rw [if_pos h]
  · intro h
    rw [if_neg h]

/-- Witness for C5: a live in-bounds particle keeps its advanced state. -/
theorem C5_update_respawn_iff_witness :
    (Update 30 demoDraws
        { params := demoParams,
          particles := [⟨100, 1, 2, 0⟩] }).particles.getD 0 ⟨0, 0, 0, 0⟩ =
      nextPos
        (({ params := demoParams,
            particles := [⟨100, 1, 2, 0⟩] } :
              ParticleSystem).particles.getD 0 ⟨0, 0, 0, 0⟩) 30 :=
  (C5_update_respawn_iff 30 demoDraws
      { params := demoParams, particles := [⟨100, 1, 2, 0⟩] } 0
      (by decide) ⟨0, 0, 0, 0⟩).2 (by
    show ¬((nextPos (⟨100, 1, 2, 0⟩ : Particle) 30).Y ≥ ((3 : Int) : ℚ) ∨
        (nextPos (⟨100, 1, 2, 0⟩ : Particle) 30).X ≥ ((5 : Int) : ℚ) ∨
        (nextPos (⟨100, 1, 2, 0⟩ : Particle) 30).Lifetime ≤ 0)
    push_neg
    refine ⟨?_, ?_, ?_⟩
    · rw [nextPos_Y_of_alive _ _ (by decide)]
      show (0 : ℚ) + 1 * ((((30 : Int)) : ℚ) / 2000) < ((3 : Int) : ℚ)
      push_cast
      norm_num
    · rw [nextPos_X]
      show (2 : ℚ) < ((5 : Int) : ℚ)
      push_cast
      norm_num
    · rw [nextPos_Lifetime]
      decide)

/-- C1: for every reachable state of a validly configured system,
`Display` succeeds and returns exactly `height` lines joined by the newline
separator, each of exactly `width` glyph characters. -/
theorem C1_display_shape {params : ParticleParams} {ps : ParticleSystem}
    (h : Reachable params ps) (hp : params.Valid) :
    ∃ L, displayLines ps = some L ∧
      Display ps = some (List.intercalate ['\n'] L) ∧
      L.length = params.Y.toNat ∧
      ∀ line ∈ L, line.length = params.X.toNat := by
  obtain ⟨counts, hc, hlen, hrows⟩ := buildCounts_some h hp
  have h1 : displayLines ps = some ((counts.mapIdx fun r row =>
      row.mapIdx fun c _ => asciiAt r c counts).reverse) := by
    rw [displayLines, hc]
    rfl
  refine ⟨_, h1, ?_, ?_, ?_⟩
  · rw [Display, h1]
    rfl
  · simp [hlen]
  · intro line hl
    rw [List.mem_reverse] at hl
    obtain ⟨i, hi, rfl⟩ := mem_mapIdx hl
    simp only [List.length_mapIdx]
    exact hrows _ (List.get_mem _ _ _)

/-- Witness for C1 at the demo configuration after `Start`. -/
theorem C1_display_shape_witness :
    ∃ L, displayLines (Start demoDraws (NewParticleSystem demoParams)) =
        some L ∧
      Display (Start demoDraws (NewParticleSystem demoParams)) =
        some (List.intercalate ['\n'] L) ∧
      L.length = demoParams.Y.toNat ∧
      ∀ line ∈ L, line.length = demoParams.X.toNat :=
  C1_display_shape demoReachable demoParams_Valid

/-- C8: in every reachable state of a validly configured system, the cell
index `Display` computes — `row = floor(y)`, `col = round(x)` — satisfies
`0 ≤ row < height` and `0 ≤ col < width` for every particle, and every
particle satisfies `0 ≤ x < width`. -/
theorem C8_indexing_safe {params : ParticleParams} {ps : ParticleSystem}
    (h : Reachable params ps) (hp : params.Valid) :
    ∀ p ∈ ps.particles,
      0 ≤ ⌊p.Y⌋ ∧ ⌊p.Y⌋ < params.Y ∧
        0 ≤ goRound p.X ∧ goRound p.X < params.X ∧
        0 ≤ p.X ∧ p.X < (params.X : ℚ) := by
  intro p hmem
  obtain ⟨hx0, hx1, hy0, hy1, -⟩ := reachable_Inv h hp p hmem
  have hXQ : ((params.X : ℚ)) - 1 < (params.X : ℚ) := by linarith
  exact ⟨Int.floor_nonneg.2 hy0, Int.floor_lt.2 hy1, goRound_nonneg hx0,
    goRound_lt hx0 hx1, hx0, lt_of_le_of_lt hx1 hXQ⟩

/-- Witness for C8: the single particle of the demo configuration after
`Start` indexes a legal cell. -/
theorem C8_indexing_safe_witness :
    0 ≤ ⌊(reset ⟨0, 0, 0⟩ demoParams).Y⌋ ∧
      ⌊(reset ⟨0, 0, 0⟩ demoParams).Y⌋ < demoParams.Y ∧
      0 ≤ goRound (reset ⟨0, 0, 0⟩ demoParams).X ∧
      goRound (reset ⟨0, 0, 0⟩ demoParams).X < demoParams.X ∧
      0 ≤ (reset ⟨0, 0, 0⟩ demoParams).X ∧
      (reset ⟨0, 0, 0⟩ demoParams).X < (demoParams.X : ℚ) :=
  C8_indexing_safe demoReachable demoParams_Valid
    (reset ⟨0, 0, 0⟩ demoParams) (by
      show reset (⟨0, 0, 0⟩ : Draw) demoParams ∈
        [reset (⟨0, 0, 0⟩ : Draw) demoParams]
      exact List.mem_singleton.2 rfl)

/-! ### Row reversal (C6) -/

theorem addParticle_length {H W : Int} {g g' : List (List Int)}
    {p : Particle} (h : addParticle H W g p = some g') :
    g'.length = g.length := by
  simp only [addParticle] at h
  split at h
  · have := Option.some.inj h
    rw [← this, mapCell_length]
  · exact Option.noConfusion h

theorem foldlM_addParticle_length {H W : Int} :
    ∀ (l : List Particle) (g g' : List (List Int)),
      l.foldlM (addParticle H W) g = some g' → g'.length = g.length := by
  intro l
  induction l with
  | nil =>
    intro g g' h
    rw [← Option.some.inj h]
  | cons p l ih =>
    intro g g' h
    rw [List.foldlM_cons] at h
    cases hap : addParticle H W g p with
    | none =>
      rw [hap] at h
      exact absurd h (by simp)
    | some g1 =>
      rw [hap] at h
      have h2 : l.foldlM (addParticle H W) g1 = some g' := h
      rw [ih g1 g' h2, addParticle_length hap]

theorem mapIdx_getD_self {α β : Type} (l : List α) (d : α) (f : α → β) :
    (l.mapIdx fun i _ => f (l.getD i d)) = l.map f := by
  apply List.ext_get (by simp)
  intro n h1 h2
  have hn : n < l.length := by simpa using h1
  rw [List.get_mapIdx l _ n hn, List.get_map, List.getD_eq_get l d hn]

theorem render_eq_map (counts : List (List Int)) :
    (counts.mapIdx fun r row => row.mapIdx fun c _ => asciiAt r c counts) =
      counts.map fun row => row.map ascii := by
  apply List.ext_get (by simp)
  intro n h1 h2
  have hn : n < counts.length := by simpa using h1
  rw [List.get_mapIdx counts _ n hn, List.get_map]
  have hrow : counts.getD n [] = counts.get ⟨n, hn⟩ :=
    List.getD_eq_get counts [] hn
  simp only [asciiAt, getCell, hrow]
  exact mapIdx_getD_self _ 0 ascii

/-- C6: in `Display`'s output, grid row 0 (the source row) is the last
printed line and grid row `height - 1` the first: line `i` of the output is
grid row `height - 1 - i` rendered, i.e. the rows are reversed before
joining. -/
theorem C6_row_reversal (ps : ParticleSystem) (counts : List (List Int))
    (L : List (List Char)) (hc : buildCounts ps = some counts)
    (hL : displayLines ps = some L) :
    counts.length = ps.params.Y.toNat ∧ L.length = ps.params.Y.toNat ∧
      ∀ i, i < counts.length →
        L.getD i [] = (counts.getD (counts.length - 1 - i) []).map ascii := by
  have hclen : counts.length = ps.params.Y.toNat := by
    simp only [buildCounts] at hc
    rw [foldlM_addParticle_length ps.particles _ counts hc,
      List.length_replicate]
  have hLval : L = (counts.map fun row => row.map ascii).reverse := by
    rw [displayLines, hc] at hL
    simp only [Option.map_some', Option.some.injEq] at hL
    rw [← hL, render_eq_map]
  have hLlen : L.length = counts.length := by
    rw [hLval]
    simp
  refine ⟨hclen, by rw [hLlen, hclen], ?_⟩
  intro i hi
  have hi2 : i < (counts.map fun row => row.map ascii).reverse.length := by
    simpa using hi
  have hj : (counts.map fun row => row.map ascii).length - 1 - i <
      (counts.map fun row => row.map ascii).length := by
    simp only [List.length_map]
    omega
  have hj' : counts.length - 1 - i < counts.length := by omega
  rw [hLval, List.getD_eq_get _ [] hi2, List.get_reverse' _ ⟨i, hi2⟩ hj,
    List.getD_eq_get counts [] hj']
  simp [List.get_map, List.length_map]

/-- Witness for C6: the empty-pool `1 × 1` system, whose density grid is
`[[0]]` and whose single output line is a blank. -/
theorem C6_row_reversal_witness :
    ([[(0 : Int)]] : List (List Int)).length = demoEmpty.params.Y.toNat ∧
      ([[' ']] : List (List Char)).getD 0 [] =
        (([[(0 : Int)]] : List (List Int)).getD
            (([[(0 : Int)]] : List (List Int)).length - 1 - 0) []).map ascii :=
  ⟨(C6_row_reversal demoEmpty [[0]] [[' ']] rfl rfl).1,
   (C6_row_reversal demoEmpty [[0]] [[' ']] rfl rfl).2.2 0 (by decide)⟩

/-! ### The neighbour-count utility (C9) -/

theorem foldl_overwrite {α β : Type} (l : List α) (B : α → Prop)
    [DecidablePred B] (v : α → β) (init : β) :
    l.foldl (fun acc a => if B a then acc else v a) init =
      (l.filterMap fun a => if B a then none else some (v a)).getLastD init := by
  induction l generalizing init with
  | nil => rfl
  | cons a l ih =>
    by_cases hBa : B a
    · rw [List.foldl_cons, if_pos hBa, ih,
        List.filterMap_cons_none (by rw [if_pos hBa])]
    · rw [List.foldl_cons, if_neg hBa, ih,
        List.filterMap_cons_some (by rw [if_neg hBa]),
        List.getLastD_cons]

theorem getD_mapRowAt (f : Int → Int) :
    ∀ (xs : List Int) (c : ℕ), c < xs.length →
      (mapRowAt f xs c).getD c 0 = f (xs.getD c 0) := by
  intro xs
  induction xs with
  | nil =>
    intro c hc
    simp at hc
  | cons x xs ih =>
    intro c hc
    cases c with
    | zero => rfl
    | succ c => exact ih c (Nat.lt_of_succ_lt_succ hc)

theorem getCell_mapCell (f : Int → Int) :
    ∀ (g : List (List Int)) (r c : ℕ), r < g.length →
      c < (g.getD r []).length →
      getCell (mapCell f g r c) r c = f (getCell g r c) := by
  intro g
  induction g with
  | nil =>
    intro r c hr
    simp at hr
  | cons row rows ih =>
    intro r c hr hc
    cases r with
    | zero => exact getD_mapRowAt f row c hc
    | succ r => exact ih r c (Nat.lt_of_succ_lt_succ hr) hc

theorem countParticles_eq_last (row col : Int) (counts : List (List Int)) :
    countParticles row col counts =
      ((dirs.filterMap fun dir =>
          if row + dir.1 < 0 ∨ (counts.length : Int) ≤ row + dir.1 ∨
              col + dir.2 < 0 ∨
              ((counts.headD []).length : Int) ≤ col + dir.2
          then none
          else some (getCell counts (row + dir.1).toNat
            (col + dir.2).toNat)).getLastD 0) :=
  foldl_overwrite dirs _ _ 0

/-- C9: the neighbour-count helper returns the value of the LAST in-bounds
neighbour in its fixed iteration order (0 if none is in bounds), not an
aggregate; the declumping pass zeroes a cell exactly when that value exceeds
4; and `Display` never applies either: on `demoClump` the cell `(1, 1)` that
`normalize` would zero is still rendered as a light-shade glyph. -/
theorem C9_neighbor_utility :
    (∀ (row col : Int) (counts : List (List Int)),
      countParticles row col counts =
        ((dirs.filterMap fun dir =>
            if row + dir.1 < 0 ∨ (counts.length : Int) ≤ row + dir.1 ∨
                col + dir.2 < 0 ∨
                ((counts.headD []).length : Int) ≤ col + dir.2
            then none
            else some (getCell counts (row + dir.1).toNat
              (col + dir.2).toNat)).getLastD 0)) ∧
    (∀ (row col : Int) (counts : List (List Int)),
      0 ≤ row → row.toNat < counts.length → 0 ≤ col →
      col.toNat < (counts.getD row.toNat []).length →
      getCell (normalize row col counts) row.toNat col.toNat =
        if 4 < countParticles row col counts then 0
        else getCell counts row.toNat col.toNat) ∧
    (buildCounts demoClump = some [[0, 0, 0], [0, 1, 0], [5, 0, 0]] ∧
      countParticles 1 1 [[0, 0, 0], [0, 1, 0], [5, 0, 0]] = 5 ∧
      normalize 1 1 [[0, 0, 0], [0, 1, 0], [5, 0, 0]] =
        [[0, 0, 0], [0, 0, 0], [5, 0, 0]] ∧
      displayLines demoClump =
        some [['▒', ' ', ' '], [' ', '░', ' '], [' ', ' ', ' ']]) := by
  have hbuild : buildCounts demoClump = some [[0, 0, 0], [0, 1, 0], [5, 0, 0]] := by
    have hround1 : goRound 1 = 1 := by
      unfold goRound
      rw [if_neg (by norm_num)]
      norm_num
    have hround0 : goRound 0 = 0 := by
      unfold goRound
      rw [if_neg (by norm_num)]
      norm_num
    have hf1 : (⌊(1 : ℚ)⌋ : Int) = 1 := by norm_num
    have hf2 : (⌊(2 : ℚ)⌋ : Int) = 2 := by norm_num
    have hA : ∀ g : List (List Int),
        addParticle 3 3 g ⟨1, 0, 1, 1⟩ = some (mapCell (· + 1) g 1 1) := by
      intro g
      simp only [addParticle, hround1, hf1]
      rw [if_pos (by decide)]
      rfl
    have hB : ∀ g : List (List Int),
        addParticle 3 3 g ⟨1, 0, 0, 2⟩ = some (mapCell (· + 1) g 2 0) := by
      intro g
      simp only [addParticle, hround0, hf2]
      rw [if_pos (by decide)]
      rfl
    show ([⟨1, 0, 1, 1⟩, ⟨1, 0, 0, 2⟩, ⟨1, 0, 0, 2⟩, ⟨1, 0, 0, 2⟩,
        ⟨1, 0, 0, 2⟩, ⟨1, 0, 0, 2⟩] : List Particle).foldlM (addParticle 3 3)
        [[0, 0, 0], [0, 0, 0], [0, 0, 0]] = some [[0, 0, 0], [0, 1, 0], [5, 0, 0]]
    rw [List.foldlM_cons, hA]
    show ([⟨1, 0, 0, 2⟩, ⟨1, 0, 0, 2⟩, ⟨1, 0, 0, 2⟩,
        ⟨1, 0, 0, 2⟩, ⟨1, 0, 0, 2⟩] : List Particle).foldlM (addParticle 3 3)
        [[0, 0, 0], [0, 1, 0], [0, 0, 0]] = some [[0, 0, 0], [0, 1, 0], [5, 0, 0]]
    rw [List.foldlM_cons, hB]
    show ([⟨1, 0, 0, 2⟩, ⟨1, 0, 0, 2⟩,
        ⟨1, 0, 0, 2⟩, ⟨1, 0, 0, 2⟩] : List Particle).foldlM (addParticle 3 3)
        [[0, 0, 0], [0, 1, 0], [1, 0, 0]] = some [[0, 0, 0], [0, 1, 0], [5, 0, 0]]
    rw [List.foldlM_cons, hB]
    show ([⟨1, 0, 0, 2⟩, ⟨1, 0, 0, 2⟩,
        ⟨1, 0, 0, 2⟩] : List Particle).foldlM (addParticle 3 3)
        [[0, 0, 0], [0, 1, 0], [2, 0, 0]] = some [[0, 0, 0], [0, 1, 0], [5, 0, 0]]
    rw [List.foldlM_cons, hB]
    show ([⟨1, 0, 0, 2⟩, ⟨1, 0, 0, 2⟩] : List Particle).foldlM (addParticle 3 3)
        [[0, 0, 0], [0, 1, 0], [3, 0, 0]] = some [[0, 0, 0], [0, 1, 0], [5, 0, 0]]
    rw [List.foldlM_cons, hB]
    show ([⟨1, 0, 0, 2⟩] : List Particle).foldlM (addParticle 3 3)
        [[0, 0, 0], [0, 1, 0], [4, 0, 0]] = some [[0, 0, 0], [0, 1, 0], [5, 0, 0]]
    rw [List.foldlM_cons, hB]
    rfl
  refine ⟨fun row col counts => countParticles_eq_last row col counts,
    ?_, hbuild, by decide, by decide, ?_⟩
  · intro row col counts hr0 hr hc0 hc
    unfold normalize
    by_cases h : 4 < countParticles row col counts
    · rw [if_pos h, if_pos h]
      exact getCell_mapCell (fun _ => 0) counts row.toNat col.toNat hr hc
    · rw [if_neg h, if_neg h]
  · rw [displayLines, hbuild]
    rfl

/-- Witness for C9: the declumping pass zeroes cell `(1, 1)` of the demo
grid, whose last in-bounds neighbour holds 5. -/
theorem C9_neighbor_utility_witness :
    getCell (normalize 1 1 [[0, 0, 0], [0, 1, 0], [5, 0, 0]])
        (1 : Int).toNat (1 : Int).toNat =
      if 4 < countParticles 1 1 [[0, 0, 0], [0, 1, 0], [5, 0, 0]] then 0
      else getCell [[0, 0, 0], [0, 1, 0], [5, 0, 0]]
        (1 : Int).toNat (1 : Int).toNat :=
  C9_neighbor_utility.2.1 1 1 [[0, 0, 0], [0, 1, 0], [5, 0, 0]]
    (by decide) (by decide) (by decide) (by decide)

end CoffeeCup
